import Mathlib

/-!
Verification of the equirectangular-panorama-to-cubemap converter
(`src/skybox.py`, function `exr_to_cubemap`).

The numeric core is embedded over the real numbers: the float arithmetic of
the source (exposure scaling, gamma via `np.power`, `np.arctan2`, `np.arcsin`,
`np.linalg.norm`, Python `int()` truncation, numpy array indexing with
possibly-negative integer indices) is modelled by the corresponding exact
real-valued operations, with truncation toward zero and numpy index semantics
made explicit.
-/

open Real

/-- Python `int()` / numpy float-to-int conversion: truncation toward zero. -/
noncomputable def truncToZero (r : ℝ) : ℤ :=
  if 0 ≤ r then ⌊r⌋ else ⌈r⌉

/-- `np.clip(a, lo, hi)`: clamp `a` into `[lo, hi]`. -/
noncomputable def npClip (a lo hi : ℝ) : ℝ :=
  min (max a lo) hi

/-- One channel of the tonemapper, from the source lines
`hdr = np.clip(hdr * 1.5, 0, 1)`, `hdr = np.power(hdr, 1/2.2)`,
`ldr = (hdr * 255).astype(np.uint8)`: exposure scaling by 1.5, clamp to
[0,1], gamma 1/2.2, scale by 255, then the uint8 cast (truncation toward
zero followed by reduction mod 2^8). -/
noncomputable def tonemapChannel (x : ℝ) : ℤ :=
  truncToZero ((npClip (x * 1.5) 0 1) ^ ((1 : ℝ) / 2.2) * 255) % 256

/-- The tonemapper channel as the spec words it: multiply by the fixed
exposure factor 1.5, clamp to [0,1], raise to the power 1/2.2, multiply by
255, and floor to an integer (the spec's "truncate (floor via integer
truncation) to an unsigned 8-bit integer"). Stated from the spec, to be
compared with `tonemapChannel` which is taken from the source. -/
noncomputable def specTonemapChannel (x : ℝ) : ℤ :=
  ⌊(npClip (1.5 * x) 0 1) ^ ((1 : ℝ) / 2.2) * 255⌋

/-- The face-size resolver, from the source lines
`if size is None: size = height // 2`: an explicitly provided size is used
verbatim; only an absent size falls back to `height // 2`. -/
def resolveFaceSize (height : ℕ) (size : Option ℤ) : ℤ :=
  match size with
  | none => (height : ℤ) / 2
  | some s => s

/-- A pixel: an RGB triple of 8-bit channel values, modelled as integers. -/
abbrev Pixel := ℤ × ℤ × ℤ

/-- Numpy integer indexing into a list: a nonnegative index `i` addresses
position `i` (IndexError, modelled as `none`, when `i ≥ len`); a negative
index wraps to `i + len` (IndexError when `i + len < 0`). -/
def npGet {α : Type} (xs : List α) (i : ℤ) : Option α :=
  if 0 ≤ i then xs.get? i.toNat
  else if 0 ≤ i + xs.length then xs.get? (i + xs.length).toNat
  else none

/-- `np.arctan2 y x`: the angle of the point `(x, y)`, in `(-π, π]`,
with `arctan2 0 0 = 0`. -/
noncomputable def atan2 (y x : ℝ) : ℝ :=
  if 0 < x then Real.arctan (y / x)
  else if x < 0 then
    if 0 ≤ y then Real.arctan (y / x) + π else Real.arctan (y / x) - π
  else
    if 0 < y then π / 2 else if y < 0 then -(π / 2) else 0

/-- `np.linalg.norm` of a 3-vector. -/
noncomputable def norm3 (x y z : ℝ) : ℝ :=
  Real.sqrt (x ^ 2 + y ^ 2 + z ^ 2)

/-- The horizontal texture coordinate of `sample_equirect`
(`u = 0.5 + np.arctan2(vec[0], vec[2]) / (2 * np.pi)` after `vec` is divided
by its norm). -/
noncomputable def texU (x y z : ℝ) : ℝ :=
  0.5 + atan2 (x / norm3 x y z) (z / norm3 x y z) / (2 * π)

/-- The vertical texture coordinate of `sample_equirect`
(`v = 0.5 - np.arcsin(vec[1]) / np.pi` after `vec` is divided by its norm). -/
noncomputable def texV (x y z : ℝ) : ℝ :=
  0.5 - Real.arcsin (y / norm3 x y z) / π

/-- `px = int(u * (w - 1))` of `sample_equirect`. -/
noncomputable def samplePx (w : ℕ) (x y z : ℝ) : ℤ :=
  truncToZero (texU x y z * ((w : ℝ) - 1))

/-- `py = int(v * (h - 1))` of `sample_equirect`. -/
noncomputable def samplePy (h : ℕ) (x y z : ℝ) : ℤ :=
  truncToZero (texV x y z * ((h : ℝ) - 1))

/-- The function `sample_equirect` of the source: normalize the direction,
map it to equirectangular texture coordinates, truncate to pixel indices,
and return `ldr[py][px]` under numpy indexing semantics. -/
noncomputable def sample_equirect (ldr : List (List Pixel)) (w h : ℕ)
    (x y z : ℝ) : Option Pixel :=
  (npGet ldr (samplePy h x y z)).bind fun row => npGet row (samplePx w x y z)

/-- The six cube faces. -/
inductive Face
  | right | left | top | bottom | front | back
  deriving DecidableEq

/-- The direction vector each face loop passes to `sample_equirect`, read off
the six loop bodies of the source: right `(1, -v, -u)`, left `(-1, -v, u)`,
top `(u, 1, v)`, bottom `(u, -1, -v)`, front `(u, -v, 1)`, back
`(-u, -v, -1)`. -/
noncomputable def faceDir (f : Face) (u v : ℝ) : ℝ × ℝ × ℝ :=
  match f with
  | .right => (1, -v, -u)
  | .left => (-1, -v, u)
  | .top => (u, 1, v)
  | .bottom => (u, -1, -v)
  | .front => (u, -v, 1)
  | .back => (-u, -v, -1)

/-- One output pixel of one face, from the loop bodies of the source:
`u = (j + 0.5) / face_size * 2 - 1`, `v = (i + 0.5) / face_size * 2 - 1`,
then `face[i, j] = sample_equirect(dir)` with the face's direction. -/
noncomputable def facePixel (ldr : List (List Pixel)) (w h : ℕ) (s : ℕ)
    (f : Face) (i j : ℕ) : Option Pixel :=
  let u := ((j : ℝ) + 0.5) / (s : ℝ) * 2 - 1
  let v := ((i : ℝ) + 0.5) / (s : ℝ) * 2 - 1
  let d := faceDir f u v
  sample_equirect ldr w h d.1 d.2.1 d.2.2

/-- A whole face grid: `face_size` rows of `face_size` sampled pixels. -/
noncomputable def projectFace (ldr : List (List Pixel)) (w h : ℕ) (s : ℕ)
    (f : Face) : List (List (Option Pixel)) :=
  (List.range s).map fun i => (List.range s).map fun j => facePixel ldr w h s f i j

/-- The face axis convention as tabulated in the spec, stated from the spec's
table to be compared against `faceDir`, which is read off the source. -/
noncomputable def specFaceDir (f : Face) (u v : ℝ) : ℝ × ℝ × ℝ :=
  match f with
  | .right => (1, -v, -u)
  | .left => (-1, -v, u)
  | .top => (u, 1, v)
  | .bottom => (u, -1, -v)
  | .front => (u, -v, 1)
  | .back => (-u, -v, -1)

/-- The canonical unit axis of each face: right +X, left -X, top +Y,
bottom -Y, front +Z, back -Z. -/
noncomputable def canonicalAxis (f : Face) : ℝ × ℝ × ℝ :=
  match f with
  | .right => (1, 0, 0)
  | .left => (-1, 0, 0)
  | .top => (0, 1, 0)
  | .bottom => (0, -1, 0)
  | .front => (0, 0, 1)
  | .back => (0, 0, -1)

/-- Normalization of a 3-vector to unit length, `vec / np.linalg.norm(vec)`. -/
noncomputable def normalize3 (d : ℝ × ℝ × ℝ) : ℝ × ℝ × ℝ :=
  (d.1 / norm3 d.1 d.2.1 d.2.2, d.2.1 / norm3 d.1 d.2.1 d.2.2,
    d.2.2 / norm3 d.1 d.2.1 d.2.2)

/-- The inverse spherical mapping named by the spec's round-trip property:
texture coordinates back to a direction, longitude
`θ = (texU - 0.5) * 2π`, latitude `φ = (0.5 - texV) * π`, direction
`(sin θ * cos φ, sin φ, cos θ * cos φ)`. -/
noncomputable def invEquirect (tu tv : ℝ) : ℝ × ℝ × ℝ :=
  ((Real.sin ((tu - 0.5) * (2 * π))) * Real.cos ((0.5 - tv) * π),
    Real.sin ((0.5 - tv) * π),
    (Real.cos ((tu - 0.5) * (2 * π))) * Real.cos ((0.5 - tv) * π))

/- ### Helper lemmas on truncation and the tonemapper -/

lemma truncToZero_of_nonneg {r : ℝ} (h : 0 ≤ r) : truncToZero r = ⌊r⌋ := by
  simp [truncToZero, h]

lemma npClip01_nonneg (a : ℝ) : 0 ≤ npClip a 0 1 := by
  simp [npClip]

lemma npClip01_le_one (a : ℝ) : npClip a 0 1 ≤ 1 := min_le_right _ _

/-- The value fed to the uint8 cast is in [0, 255]. -/
lemma tonemapPre_bounds (x : ℝ) :
    0 ≤ (npClip (x * 1.5) 0 1) ^ ((1 : ℝ) / 2.2) * 255 ∧
      (npClip (x * 1.5) 0 1) ^ ((1 : ℝ) / 2.2) * 255 ≤ 255 := by
  have h0 : (0 : ℝ) ≤ npClip (x * 1.5) 0 1 := npClip01_nonneg _
  have h1 : npClip (x * 1.5) 0 1 ≤ 1 := npClip01_le_one _
  have hp0 : (0 : ℝ) ≤ (npClip (x * 1.5) 0 1) ^ ((1 : ℝ) / 2.2) :=
    Real.rpow_nonneg h0 _
  have hp1 : (npClip (x * 1.5) 0 1) ^ ((1 : ℝ) / 2.2) ≤ 1 :=
    Real.rpow_le_one h0 h1 (by norm_num)
  constructor
  · positivity
  · nlinarith

lemma tonemapTrunc_bounds (x : ℝ) :
    0 ≤ ⌊(npClip (x * 1.5) 0 1) ^ ((1 : ℝ) / 2.2) * 255⌋ ∧
      ⌊(npClip (x * 1.5) 0 1) ^ ((1 : ℝ) / 2.2) * 255⌋ ≤ 255 := by
  obtain ⟨hl, hr⟩ := tonemapPre_bounds x
  constructor
  · exact Int.floor_nonneg.mpr hl
  · have : ⌊(npClip (x * 1.5) 0 1) ^ ((1 : ℝ) / 2.2) * 255⌋ ≤ ⌊(255 : ℝ)⌋ :=
      Int.floor_le_floor hr
    simpa using this

lemma tonemapChannel_eq_floor (x : ℝ) :
    tonemapChannel x = ⌊(npClip (x * 1.5) 0 1) ^ ((1 : ℝ) / 2.2) * 255⌋ := by
  obtain ⟨hl, hr⟩ := tonemapPre_bounds x
  obtain ⟨hfl, hfr⟩ := tonemapTrunc_bounds x
  unfold tonemapChannel
  rw [truncToZero_of_nonneg hl]
  exact Int.emod_eq_of_lt hfl (by omega)

/- ### Range of atan2 and of the texture coordinates -/

lemma arctan_nonneg_of {x : ℝ} (h : 0 ≤ x) : 0 ≤ Real.arctan x := by
  have := Real.arctan_strictMono.monotone h
  simpa using this

lemma arctan_nonpos_of {x : ℝ} (h : x ≤ 0) : Real.arctan x ≤ 0 := by
  have := Real.arctan_strictMono.monotone h
  simpa using this

lemma atan2_le_pi (y x : ℝ) : atan2 y x ≤ π := by
  have hπ := Real.pi_pos
  unfold atan2
  split_ifs with h1 h2 h3 h4 h5
  · linarith [Real.arctan_lt_pi_div_two (y / x)]
  · have hyx : y / x ≤ 0 := div_nonpos_of_nonneg_of_nonpos h3 h2.le
    linarith [arctan_nonpos_of hyx]
  · linarith [Real.arctan_lt_pi_div_two (y / x)]
  · linarith
  · linarith
  · linarith

lemma neg_pi_le_atan2 (y x : ℝ) : -π ≤ atan2 y x := by
  have hπ := Real.pi_pos
  unfold atan2
  split_ifs with h1 h2 h3 h4 h5
  · linarith [Real.neg_pi_div_two_lt_arctan (y / x)]
  · linarith [Real.neg_pi_div_two_lt_arctan (y / x)]
  · have hyx : 0 ≤ y / x := div_nonneg_iff.mpr (Or.inr ⟨le_of_not_le h3, h2.le⟩)
    linarith [arctan_nonneg_of hyx]
  · linarith
  · linarith
  · linarith

lemma texU_bounds (x y z : ℝ) : 0 ≤ texU x y z ∧ texU x y z ≤ 1 := by
  have hπ := Real.pi_pos
  have h2p : (0 : ℝ) < 2 * π := by linarith
  have h1 := atan2_le_pi (x / norm3 x y z) (z / norm3 x y z)
  have h2 := neg_pi_le_atan2 (x / norm3 x y z) (z / norm3 x y z)
  have hle : atan2 (x / norm3 x y z) (z / norm3 x y z) / (2 * π) ≤ 1 / 2 := by
    rw [div_le_div_iff₀ h2p (by norm_num)]
    linarith
  have hge : -(1 / 2 : ℝ) ≤ atan2 (x / norm3 x y z) (z / norm3 x y z) / (2 * π) := by
    rw [neg_le, ← neg_div]
    rw [div_le_div_iff₀ h2p (by norm_num)]
    linarith
  unfold texU
  norm_num
  constructor <;> linarith

lemma texV_bounds (x y z : ℝ) : 0 ≤ texV x y z ∧ texV x y z ≤ 1 := by
  have hπ := Real.pi_pos
  have h1 := Real.arcsin_le_pi_div_two (y / norm3 x y z)
  have h2 := Real.neg_pi_div_two_le_arcsin (y / norm3 x y z)
  have hle : Real.arcsin (y / norm3 x y z) / π ≤ 1 / 2 := by
    rw [div_le_div_iff₀ hπ (by norm_num)]
    linarith
  have hge : -(1 / 2 : ℝ) ≤ Real.arcsin (y / norm3 x y z) / π := by
    rw [neg_le, ← neg_div]
    rw [div_le_div_iff₀ hπ (by norm_num)]
    linarith
  unfold texV
  norm_num
  constructor <;> linarith

/-- Truncating `t * (n - 1)` for `t ∈ [0,1]` lands in `[0, n-1]`. -/
lemma trunc_scale_bounds {t : ℝ} (h0 : 0 ≤ t) (h1 : t ≤ 1) {n : ℕ} (hn : 1 ≤ n) :
    0 ≤ truncToZero (t * ((n : ℝ) - 1)) ∧
      truncToZero (t * ((n : ℝ) - 1)) ≤ (n : ℤ) - 1 := by
  have hn1 : (0 : ℝ) ≤ (n : ℝ) - 1 := by
    have : (1 : ℝ) ≤ (n : ℝ) := by exact_mod_cast hn
    linarith
  have hnn : 0 ≤ t * ((n : ℝ) - 1) := mul_nonneg h0 hn1
  rw [truncToZero_of_nonneg hnn]
  refine ⟨Int.floor_nonneg.mpr hnn, ?_⟩
  have hle : t * ((n : ℝ) - 1) ≤ (n : ℝ) - 1 := by nlinarith
  have hfl : ⌊t * ((n : ℝ) - 1)⌋ ≤ ⌊(n : ℝ) - 1⌋ := Int.floor_le_floor hle
  have heq : ((n : ℝ) - 1) = (((n : ℤ) - 1 : ℤ) : ℝ) := by push_cast; ring
  have hfl2 : ⌊(n : ℝ) - 1⌋ = (n : ℤ) - 1 := by rw [heq, Int.floor_intCast]
  rw [hfl2] at hfl
  exact hfl

lemma samplePx_bounds (x y z : ℝ) {w : ℕ} (hw : 1 ≤ w) :
    0 ≤ samplePx w x y z ∧ samplePx w x y z ≤ (w : ℤ) - 1 := by
  obtain ⟨h0, h1⟩ := texU_bounds x y z
  exact trunc_scale_bounds h0 h1 hw

lemma samplePy_bounds (x y z : ℝ) {h : ℕ} (hh : 1 ≤ h) :
    0 ≤ samplePy h x y z ∧ samplePy h x y z ≤ (h : ℤ) - 1 := by
  obtain ⟨h0, h1⟩ := texV_bounds x y z
  exact trunc_scale_bounds h0 h1 hh

/- ### Claims C3, C7, C4 -/

/-- C3: for every input channel value, the tonemapper produces the 8-bit
value obtained by exactly these steps in order: multiply by 1.5, clamp to
[0,1], raise to the power 1/2.2, multiply by 255, and truncate (floor) to an
unsigned 8-bit integer. -/
theorem c3_tonemapper_steps (x : ℝ) : tonemapChannel x = specTonemapChannel x := by
  rw [tonemapChannel_eq_floor, specTonemapChannel, mul_comm x 1.5]

/-- C7: for every finite input channel value, including negative values and
values greater than 1, the tonemapper output channel lies in [0, 255] (the
function is total over the reals: no input raises). -/
theorem c7_tonemapper_range (x : ℝ) :
    0 ≤ tonemapChannel x ∧ tonemapChannel x ≤ 255 := by
  rw [tonemapChannel_eq_floor]
  exact tonemapTrunc_bounds x

/-- C4 counterexample: the claim says a provided non-positive size falls back
to `h // 2`, so `resolve(height=512, size=0)` would be 256; the code returns
the provided size verbatim whenever it is present, so it returns 0. -/
theorem c4_counterexample :
    resolveFaceSize 512 (some 0) = 0 ∧ resolveFaceSize 512 (some 0) ≠ 256 := by
  constructor <;> decide

/-- C4 amended: the resolver returns the provided size verbatim whenever a
size is provided (positive or not), and returns `h // 2` (integer division)
exactly when the size is absent; in particular resolve(512, None) = 256,
resolve(511, None) = 255, resolve(512, 100) = 100. -/
theorem c4_resolver_amended :
    (∀ (h : ℕ) (s : ℤ), resolveFaceSize h (some s) = s) ∧
      (∀ h : ℕ, resolveFaceSize h none = (h : ℤ) / 2) ∧
      resolveFaceSize 512 none = 256 ∧
      resolveFaceSize 511 none = 255 ∧
      resolveFaceSize 512 (some 100) = 100 := by
  refine ⟨fun h s => rfl, fun h => rfl, ?_, ?_, ?_⟩ <;> decide

/- ### Claims C1, C9, C10, C2 -/

/-- C1: for every face and output pixel (i, j), the projector computes
`u = ((j + 0.5) / face_size) * 2 - 1`, `v = ((i + 0.5) / face_size) * 2 - 1`
and samples the source along the direction tabulated for the face
(right `(1,-v,-u)`, left `(-1,-v,u)`, top `(u,1,v)`, bottom `(u,-1,-v)`,
front `(u,-v,1)`, back `(-u,-v,-1)`). -/
theorem c1_projector_directions (ldr : List (List Pixel)) (w h s : ℕ)
    (f : Face) (i j : ℕ) :
    facePixel ldr w h s f i j =
      sample_equirect ldr w h
        (specFaceDir f (((j : ℝ) + 0.5) / (s : ℝ) * 2 - 1)
          (((i : ℝ) + 0.5) / (s : ℝ) * 2 - 1)).1
        (specFaceDir f (((j : ℝ) + 0.5) / (s : ℝ) * 2 - 1)
          (((i : ℝ) + 0.5) / (s : ℝ) * 2 - 1)).2.1
        (specFaceDir f (((j : ℝ) + 0.5) / (s : ℝ) * 2 - 1)
          (((i : ℝ) + 0.5) / (s : ℝ) * 2 - 1)).2.2 := by
  cases f <;> rfl

/-- C9: the direction function of each face, evaluated at the face center
`u = v = 0` and normalized, is exactly the face's canonical unit axis. -/
theorem c9_center_axis (f : Face) :
    normalize3 (faceDir f 0 0) = canonicalAxis f := by
  cases f <;> simp [faceDir, canonicalAxis, normalize3, norm3]

/-- C10: for every face-loop direction (any face, any pixel index, any face
size), the source pixel indices computed by `sample_equirect` satisfy
`0 ≤ px ≤ w - 1` and `0 ≤ py ≤ h - 1` whenever `w ≥ 1` and `h ≥ 1`, with no
explicit clamp in the code. -/
theorem c10_indices_in_bounds (f : Face) (s i j w h : ℕ)
    (hw : 1 ≤ w) (hh : 1 ≤ h) (x y z : ℝ)
    (_hd : faceDir f (((j : ℝ) + 0.5) / (s : ℝ) * 2 - 1)
        (((i : ℝ) + 0.5) / (s : ℝ) * 2 - 1) = (x, y, z)) :
    0 ≤ samplePx w x y z ∧ samplePx w x y z ≤ (w : ℤ) - 1 ∧
      0 ≤ samplePy h x y z ∧ samplePy h x y z ≤ (h : ℤ) - 1 :=
  ⟨(samplePx_bounds x y z hw).1, (samplePx_bounds x y z hw).2,
    (samplePy_bounds x y z hh).1, (samplePy_bounds x y z hh).2⟩

/-- C10 witness: the right face at s = 1, i = j = 0, on a 4×2 source. -/
theorem c10_indices_in_bounds_witness :
    0 ≤ samplePx 4 1 0 0 ∧ samplePx 4 1 0 0 ≤ (4 : ℤ) - 1 ∧
      0 ≤ samplePy 2 1 0 0 ∧ samplePy 2 1 0 0 ≤ (2 : ℤ) - 1 :=
  c10_indices_in_bounds .right 1 0 0 4 2 (by norm_num) (by norm_num) 1 0 0
    (by norm_num [faceDir])

/-- C2: sampling converts a direction to texture coordinates
`texU = 0.5 + atan2(x, z) / (2π)`, `texV = 0.5 - asin(y) / π` of the
normalized vector and then to source pixel indices `px = ⌊texU * (w-1)⌋`,
`py = ⌊texV * (h-1)⌋` (the code's `int()` truncation agrees with `floor`
here), selecting that single source pixel. -/
theorem c2_sampler_formula (ldr : List (List Pixel)) (w h : ℕ)
    (hw : 1 ≤ w) (hh : 1 ≤ h) (x y z : ℝ) :
    samplePx w x y z = ⌊texU x y z * ((w : ℝ) - 1)⌋ ∧
      samplePy h x y z = ⌊texV x y z * ((h : ℝ) - 1)⌋ ∧
      sample_equirect ldr w h x y z =
        (npGet ldr ⌊texV x y z * ((h : ℝ) - 1)⌋).bind
          fun row => npGet row ⌊texU x y z * ((w : ℝ) - 1)⌋ := by
  have hw1 : (0 : ℝ) ≤ (w : ℝ) - 1 := by
    have : (1 : ℝ) ≤ (w : ℝ) := by exact_mod_cast hw
    linarith
  have hh1 : (0 : ℝ) ≤ (h : ℝ) - 1 := by
    have : (1 : ℝ) ≤ (h : ℝ) := by exact_mod_cast hh
    linarith
  have hu : samplePx w x y z = ⌊texU x y z * ((w : ℝ) - 1)⌋ :=
    truncToZero_of_nonneg (mul_nonneg (texU_bounds x y z).1 hw1)
  have hv : samplePy h x y z = ⌊texV x y z * ((h : ℝ) - 1)⌋ :=
    truncToZero_of_nonneg (mul_nonneg (texV_bounds x y z).1 hh1)
  refine ⟨hu, hv, ?_⟩
  unfold sample_equirect
  rw [hu, hv]

/-- C2 witness: the formula instantiated on an empty source of declared
dimensions 1×1 and direction (1, 0, 0). -/
theorem c2_sampler_formula_witness :
    samplePx 1 1 0 0 = ⌊texU 1 0 0 * ((1 : ℝ) - 1)⌋ ∧
      samplePy 1 1 0 0 = ⌊texV 1 0 0 * ((1 : ℝ) - 1)⌋ ∧
      sample_equirect [] 1 1 1 0 0 =
        (npGet [] ⌊texV 1 0 0 * ((1 : ℝ) - 1)⌋).bind
          fun row => npGet row ⌊texU 1 0 0 * ((1 : ℝ) - 1)⌋ := by
  exact_mod_cast c2_sampler_formula [] 1 1 (by norm_num) (by norm_num) 1 0 0

/- ### Constant-image sampling, claims C5 and C6 -/

lemma npGet_replicate {α : Type} (n : ℕ) (a : α) {i : ℤ}
    (h0 : 0 ≤ i) (h1 : i < (n : ℤ)) :
    npGet (List.replicate n a) i = some a := by
  unfold npGet
  rw [if_pos h0]
  have hlt : i.toNat < n := by omega
  simp [List.get?_eq_getElem?, List.getElem?_replicate, hlt]

/-- Sampling a constant `h × w` image returns the constant, for any
direction. -/
lemma sample_equirect_const (c : Pixel) {w h : ℕ} (hw : 1 ≤ w) (hh : 1 ≤ h)
    (x y z : ℝ) :
    sample_equirect (List.replicate h (List.replicate w c)) w h x y z =
      some c := by
  obtain ⟨hpx0, hpx1⟩ := samplePx_bounds x y z hw
  obtain ⟨hpy0, hpy1⟩ := samplePy_bounds x y z hh
  unfold sample_equirect
  rw [npGet_replicate h _ hpy0 (by omega), Option.some_bind,
    npGet_replicate w _ hpx0 (by omega)]

lemma facePixel_eq_sample (ldr : List (List Pixel)) (w h s : ℕ)
    (f : Face) (i j : ℕ) :
    facePixel ldr w h s f i j =
      sample_equirect ldr w h
        (faceDir f (((j : ℝ) + 0.5) / (s : ℝ) * 2 - 1)
          (((i : ℝ) + 0.5) / (s : ℝ) * 2 - 1)).1
        (faceDir f (((j : ℝ) + 0.5) / (s : ℝ) * 2 - 1)
          (((i : ℝ) + 0.5) / (s : ℝ) * 2 - 1)).2.1
        (faceDir f (((j : ℝ) + 0.5) / (s : ℝ) * 2 - 1)
          (((i : ℝ) + 0.5) / (s : ℝ) * 2 - 1)).2.2 := rfl

/-- C5: the source performs no dimension check at all: with panorama height
1 (a 2×1 equirect) and no explicit size, the resolved face size is 0, and the
projector simply produces six empty face grids instead of failing before
buffer allocation. -/
theorem c5_no_dimension_check (ldr : List (List Pixel)) (f : Face) :
    resolveFaceSize 1 none = 0 ∧
      projectFace ldr 2 1 (resolveFaceSize 1 none).toNat f = [] := by
  refine ⟨by decide, ?_⟩
  simp [projectFace, resolveFaceSize]

/-- The tonemapped pixel of an RGB float triple. -/
noncomputable def tonemapPixel (p : ℝ × ℝ × ℝ) : Pixel :=
  (tonemapChannel p.1, tonemapChannel p.2.1, tonemapChannel p.2.2)

/-- Tonemapping a whole image, `ldr = (hdr * 255).astype(np.uint8)` applied
elementwise after exposure and gamma. -/
noncomputable def tonemapImage (img : List (List (ℝ × ℝ × ℝ))) :
    List (List Pixel) :=
  img.map fun row => row.map tonemapPixel

/-- The synthetic 4×2 panorama whose every pixel is (1.0, 0.0, 0.0). -/
noncomputable def constPano : List (List (ℝ × ℝ × ℝ)) :=
  List.replicate 2 (List.replicate 4 ((1 : ℝ), (0 : ℝ), (0 : ℝ)))

lemma tonemapChannel_one : tonemapChannel 1 = 255 := by
  rw [tonemapChannel_eq_floor]
  have h1 : npClip ((1 : ℝ) * 1.5) 0 1 = 1 := by
    unfold npClip
    norm_num
  rw [h1, Real.one_rpow]
  norm_num

lemma tonemapChannel_zero : tonemapChannel 0 = 0 := by
  rw [tonemapChannel_eq_floor]
  have h1 : npClip ((0 : ℝ) * 1.5) 0 1 = 0 := by
    unfold npClip
    norm_num
  rw [h1, Real.zero_rpow (by norm_num : ((1 : ℝ) / 2.2) ≠ 0)]
  norm_num

lemma tonemapPixel_red : tonemapPixel (1, 0, 0) = (255, 0, 0) := by
  unfold tonemapPixel
  rw [show ((1 : ℝ), (0 : ℝ), (0 : ℝ)).1 = 1 from rfl]
  rw [show ((1 : ℝ), (0 : ℝ), (0 : ℝ)).2.1 = 0 from rfl]
  rw [show ((1 : ℝ), (0 : ℝ), (0 : ℝ)).2.2 = 0 from rfl]
  rw [tonemapChannel_one, tonemapChannel_zero]

/-- C6: on the synthetic 4×2 panorama of constant float color (1.0, 0.0, 0.0),
with the auto-resolved face size, every output pixel of every face is the
tonemapped color (255, 0, 0). -/
theorem c6_constant_panorama (f : Face) (i j : ℕ)
    (_hi : i < (resolveFaceSize 2 none).toNat)
    (_hj : j < (resolveFaceSize 2 none).toNat) :
    facePixel (tonemapImage constPano) 4 2 (resolveFaceSize 2 none).toNat
      f i j = some (255, 0, 0) := by
  have himg : tonemapImage constPano =
      List.replicate 2 (List.replicate 4 ((255 : ℤ), (0 : ℤ), (0 : ℤ))) := by
    unfold tonemapImage constPano
    rw [List.map_replicate, List.map_replicate, tonemapPixel_red]
  rw [facePixel_eq_sample, himg]
  exact sample_equirect_const _ (by norm_num) (by norm_num) _ _ _

/-- C6 witness: the single pixel of the front face. -/
theorem c6_constant_panorama_witness :
    facePixel (tonemapImage constPano) 4 2 (resolveFaceSize 2 none).toNat
      Face.front 0 0 = some (255, 0, 0) :=
  c6_constant_panorama .front 0 0 (by decide) (by decide)
lemma sqrt_one_add_div_sq {x y : ℝ} (hx : x ≠ 0) :
    Real.sqrt (1 + (y / x) ^ 2) = Real.sqrt (x ^ 2 + y ^ 2) / |x| := by
  have h1 : 1 + (y / x) ^ 2 = (x ^ 2 + y ^ 2) / x ^ 2 := by
    field_simp
  rw [h1, Real.sqrt_div (by positivity) _, Real.sqrt_sq_eq_abs]

lemma sin_atan2_mul (y x : ℝ) :
    Real.sin (atan2 y x) * Real.sqrt (x ^ 2 + y ^ 2) = y := by
  unfold atan2
  split_ifs with h1 h2 h3 h4 h5
  · rw [Real.sin_arctan, sqrt_one_add_div_sq h1.ne', abs_of_pos h1]
    have hs : 0 < Real.sqrt (x ^ 2 + y ^ 2) := Real.sqrt_pos.mpr (by positivity)
    have hx : x ≠ 0 := h1.ne'
    have hS : Real.sqrt (x ^ 2 + y ^ 2) ≠ 0 := hs.ne'
    field_simp
  · have hpos : (0 : ℝ) < x ^ 2 + y ^ 2 := by
      nlinarith [mul_pos_of_neg_of_neg h2 h2, sq_nonneg y]
    have hs : 0 < Real.sqrt (x ^ 2 + y ^ 2) := Real.sqrt_pos.mpr hpos
    have hx : x ≠ 0 := h2.ne
    have hS : Real.sqrt (x ^ 2 + y ^ 2) ≠ 0 := hs.ne'
    rw [Real.sin_add_pi, Real.sin_arctan, sqrt_one_add_div_sq hx, abs_of_neg h2]
    field_simp
    ring
  · have hpos : (0 : ℝ) < x ^ 2 + y ^ 2 := by
      nlinarith [mul_pos_of_neg_of_neg h2 h2, sq_nonneg y]
    have hs : 0 < Real.sqrt (x ^ 2 + y ^ 2) := Real.sqrt_pos.mpr hpos
    have hx : x ≠ 0 := h2.ne
    have hS : Real.sqrt (x ^ 2 + y ^ 2) ≠ 0 := hs.ne'
    rw [Real.sin_sub_pi, Real.sin_arctan, sqrt_one_add_div_sq hx, abs_of_neg h2]
    field_simp
    ring
  · have hx0 : x = 0 := by linarith
    subst hx0
    rw [Real.sin_pi_div_two]
    simp [Real.sqrt_sq_eq_abs, abs_of_pos h4]
  · have hx0 : x = 0 := by linarith
    subst hx0
    rw [Real.sin_neg, Real.sin_pi_div_two]
    simp [Real.sqrt_sq_eq_abs, abs_of_neg h5]
  · have hy0 : y = 0 := by linarith
    subst hy0
    simp

lemma cos_atan2_mul (y x : ℝ) :
    Real.cos (atan2 y x) * Real.sqrt (x ^ 2 + y ^ 2) = x := by
  unfold atan2
  split_ifs with h1 h2 h3 h4 h5
  · rw [Real.cos_arctan, sqrt_one_add_div_sq h1.ne', abs_of_pos h1]
    have hs : 0 < Real.sqrt (x ^ 2 + y ^ 2) := Real.sqrt_pos.mpr (by positivity)
    have hx : x ≠ 0 := h1.ne'
    have hS : Real.sqrt (x ^ 2 + y ^ 2) ≠ 0 := hs.ne'
    field_simp
  · have hpos : (0 : ℝ) < x ^ 2 + y ^ 2 := by
      nlinarith [mul_pos_of_neg_of_neg h2 h2, sq_nonneg y]
    have hs : 0 < Real.sqrt (x ^ 2 + y ^ 2) := Real.sqrt_pos.mpr hpos
    have hx : x ≠ 0 := h2.ne
    have hS : Real.sqrt (x ^ 2 + y ^ 2) ≠ 0 := hs.ne'
    rw [Real.cos_add_pi, Real.cos_arctan, sqrt_one_add_div_sq hx, abs_of_neg h2]
    field_simp
  · have hpos : (0 : ℝ) < x ^ 2 + y ^ 2 := by
      nlinarith [mul_pos_of_neg_of_neg h2 h2, sq_nonneg y]
    have hs : 0 < Real.sqrt (x ^ 2 + y ^ 2) := Real.sqrt_pos.mpr hpos
    have hx : x ≠ 0 := h2.ne
    have hS : Real.sqrt (x ^ 2 + y ^ 2) ≠ 0 := hs.ne'
    rw [Real.cos_sub_pi, Real.cos_arctan, sqrt_one_add_div_sq hx, abs_of_neg h2]
    field_simp
  · have hx0 : x = 0 := by linarith
    subst hx0
    rw [Real.cos_pi_div_two]
    simp
  · have hx0 : x = 0 := by linarith
    subst hx0
    rw [Real.cos_neg, Real.cos_pi_div_two]
    simp
  · have hx0 : x = 0 := by linarith
    subst hx0
    have hy0 : y = 0 := by linarith
    subst hy0
    simp

/-- C8: for every unit-length direction, mapping to texture coordinates via
`texU = 0.5 + atan2(x, z)/(2π)`, `texV = 0.5 - asin(y)/π` and applying the
inverse spherical mapping reproduces the direction exactly (the real-valued
model of "within floating-point tolerance"). -/
theorem c8_round_trip (x y z : ℝ) (hunit : x ^ 2 + y ^ 2 + z ^ 2 = 1) :
    invEquirect (texU x y z) (texV x y z) = (x, y, z) := by
  have hn : norm3 x y z = 1 := by
    unfold norm3
    rw [hunit, Real.sqrt_one]
  have hy1 : -1 ≤ y := by nlinarith [sq_nonneg x, sq_nonneg z, sq_nonneg (y + 1)]
  have hy2 : y ≤ 1 := by nlinarith [sq_nonneg x, sq_nonneg z, sq_nonneg (y - 1)]
  have hπ : (π : ℝ) ≠ 0 := Real.pi_ne_zero
  have h2π : (2 * π : ℝ) ≠ 0 := by positivity
  unfold invEquirect texU texV
  rw [hn]
  simp only [div_one]
  rw [add_sub_cancel_left, div_mul_cancel₀ _ h2π, sub_sub_cancel,
    div_mul_cancel₀ _ hπ]
  have hsin : Real.sin (Real.arcsin y) = y := Real.sin_arcsin hy1 hy2
  have hcos : Real.cos (Real.arcsin y) = Real.sqrt (1 - y ^ 2) :=
    Real.cos_arcsin y
  have hsq : (1 : ℝ) - y ^ 2 = z ^ 2 + x ^ 2 := by linarith
  rw [hsin, hcos, hsq]
  have h1 := sin_atan2_mul x z
  have h2 := cos_atan2_mul x z
  rw [Prod.ext_iff, Prod.ext_iff]
  exact ⟨h1, rfl, h2⟩

/-- C8 witness: the unit direction (1, 0, 0). -/
theorem c8_round_trip_witness :
    (1 : ℝ) ^ 2 + 0 ^ 2 + 0 ^ 2 = 1 ∧
      invEquirect (texU 1 0 0) (texV 1 0 0) = (1, 0, 0) :=
  ⟨by norm_num, c8_round_trip 1 0 0 (by norm_num)⟩
